import Mathlib

/-!
Verification of the image-quantization pipeline in `src/main.go`
(palette construction, Bayer ordered dithering, nearest-color mapping).

Modelling conventions, shared by every definition below:

* Go `uint8` channel values are `ℕ` with an explicit `% 256` at each point
  where the Go code performs a conversion or an arithmetic operation that
  can wrap (`uint8` addition in `Add`, the `uint8(...)` conversions in
  `PixelColor` / `RedSortedImagePixels`).
* Go `int` is `ℤ`; Go `/` and `%` on `int` truncate toward zero, so they
  are modelled by `Int.tdiv` and `Int.tmod`.
* Go `float64` values are modelled by `ℚ`.  Every `float64` computation in
  the source is exact over the inputs that reach it, except where a comment
  below says otherwise: the Bayer tables hold small integers, the divisor
  `N*N` is a power of two (division by it is exact in binary floating
  point), and subtracting `0.5` from a value of magnitude below `1` is
  exact.  Where rounding could occur (`255/paletteSize`, channel sums),
  the properties proved here (clamping ranges, composition structure) are
  insensitive to it; see the comments at the definitions involved.
* A Go runtime fault (index out of range, integer division by zero) is
  modelled by `Option`: a function that can fault returns `none` exactly
  when the Go code panics.
-/

namespace ImageQuant

/-- Model of Go `color.RGBA`: four 8-bit unsigned channels.  Channels are
naturals; every constructor in this development produces values below 256. -/
structure RGBA where
  R : ℕ
  G : ℕ
  B : ℕ
  A : ℕ
deriving DecidableEq, Repr

/-- Model of a Go `image.Image`: a bounds rectangle
`[minX, maxX) × [minY, maxY)` plus a pixel function.  `image.Bounds()` may
have arbitrary (also negative) corners. -/
structure Image where
  minX : ℤ
  minY : ℤ
  maxX : ℤ
  maxY : ℤ
  px : ℤ → ℤ → RGBA

/-- ClampU8 clamps x inside [low, high] (Go operates on uint8 values). -/
def ClampU8 (x low high : ℕ) : ℕ :=
  if x < low then low else if x > high then high else x

/-- ClampF64 clamps a float x inside [low, high]. -/
def ClampF64 (x low high : ℚ) : ℚ :=
  if x < low then low else if x > high then high else x

/-- ClampBelowInt clamps an integer x if it is below low. -/
def ClampBelowInt (x low : ℤ) : ℤ :=
  if x < low then low else x

/-- ClampAboveInt clamps an integer x if it is above high. -/
def ClampAboveInt (x high : ℤ) : ℤ :=
  if x > high then high else x

/-- PixelColor returns the color of the pixel at column x and row y.
Go reads `img.At(x, y).RGBA()`, which for an RGBA image yields the 16-bit
channels `R*0x101, ...`, and then truncates with `uint8(...)`, keeping the
low byte.  Since `0x101 = 257 ≡ 1 (mod 256)`, the composite is reduction of
each stored channel mod 256. -/
def PixelColor (img : Image) (x y : ℤ) : RGBA :=
  let c := img.px x y
  ⟨c.R * 257 % 256, c.G * 257 % 256, c.B * 257 % 256, c.A * 257 % 256⟩

/-- The coordinates visited by the nested pixel loops of `QuantizeImage` and
`RedSortedImagePixels`, in raster order: `y` from `Min.Y` (exclusive upper
bound `Max.Y`) in the outer loop, `x` likewise in the inner loop. -/
def rasterCoords (img : Image) : List (ℤ × ℤ) :=
  (List.range (img.maxY - img.minY).toNat).flatMap fun (j : ℕ) =>
    (List.range (img.maxX - img.minX).toNat).map fun (i : ℕ) =>
      (img.minX + (i : ℤ), img.minY + (j : ℤ))

/-- Number of pixels of an image (width times height). -/
def numPixels (img : Image) : ℕ :=
  (img.maxX - img.minX).toNat * (img.maxY - img.minY).toNat

/-- The 2×2 Bayer matrix of `BayerCoefficient` (a `[...]float64` in Go). -/
def bayerTable2 : List ℚ := [0, 2, 3, 1]

/-- The 4×4 Bayer matrix of `BayerCoefficient`. -/
def bayerTable4 : List ℚ :=
  [0, 8, 2, 10,
   12, 4, 14, 6,
   3, 11, 1, 9,
   15, 7, 13, 5]

/-- The 8×8 Bayer matrix of `BayerCoefficient`. -/
def bayerTable8 : List ℚ :=
  [0, 32, 8, 40, 2, 34, 10, 42,
   48, 16, 56, 24, 50, 18, 58, 26,
   12, 44, 4, 36, 14, 46, 6, 38,
   60, 28, 52, 20, 62, 30, 54, 22,
   3, 35, 11, 43, 1, 33, 9, 41,
   51, 19, 59, 27, 49, 17, 57, 25,
   15, 47, 7, 39, 13, 45, 5, 37,
   63, 31, 55, 23, 61, 29, 53, 21]

/-- The coercion at the top of `BayerCoefficient`: any size other than
2, 4 or 8 is replaced by 8. -/
def bayerSize (bayerMatSize : ℤ) : ℤ :=
  if bayerMatSize ≠ 2 ∧ bayerMatSize ≠ 4 ∧ bayerMatSize ≠ 8 then 8 else bayerMatSize

/-- The `switch` of `BayerCoefficient` selecting the matrix for a (coerced)
size: case 2, case 4, and the default case using the 8×8 matrix. -/
def bayerTableOf (n : ℤ) : List ℚ :=
  if n = 2 then bayerTable2 else if n = 4 then bayerTable4 else bayerTable8

/-- BayerCoefficient, translated from `src/main.go` lines 77-119.
`i := (y%n)*n + (x%n)` uses Go's truncated `%` (`Int.tmod`), whose result is
negative for a negative operand, so for negative coordinates the index into
the matrix can be negative and the Go lookup `mat[i]` panics: that case is
`none`.  The returned coefficient `mat[i]/(n*n) - 0.5` is exact in
`float64` (small integer divided by a power of two, then an exact
subtraction), so the `ℚ` value is bit-faithful. -/
def BayerCoefficient (x y : ℤ) (bayerMatSize : ℤ) : Option ℚ :=
  let n := bayerSize bayerMatSize
  let i := y.tmod n * n + x.tmod n
  let mat := bayerTableOf n
  if 0 ≤ i ∧ i < (mat.length : ℤ) then
    some (mat.getD i.toNat 0 / ((n * n : ℤ) : ℚ) - 1/2)
  else
    none

/-- BayerDithering, translated from `src/main.go` lines 123-141.  The float
offset `k = (255/paletteSize) * coef` is added to each of R, G, B, the sum
is clamped to `[0, 255]` and converted with `uint8(...)`, which truncates
toward zero (= `Int.floor` on the clamped nonnegative value); alpha is 255.
When `paletteSize = 0`, Go computes `255/0.0 = +Inf` and converting the
resulting NaN (for a zero coefficient) to `uint8` has no defined value, so
that case is modelled as a fault; it is unreachable from `QuantizeImage`,
which always passes a nonempty palette's length.  `255/paletteSize` may
round in `float64` where the model divides exactly; every property proved
about this function is insensitive to that rounding. -/
def BayerDithering (c : RGBA) (x y : ℤ) (paletteSize bayerMatSize : ℤ) : Option RGBA :=
  match BayerCoefficient x y bayerMatSize with
  | none => none
  | some coef =>
    if paletteSize = 0 then none
    else
      let R : ℚ := 255 / (paletteSize : ℚ)
      let k := R * coef
      let r := (c.R : ℚ) + k
      let g := (c.G : ℚ) + k
      let b := (c.B : ℚ) + k
      some ⟨(Int.floor (ClampF64 r 0 255)).toNat,
            (Int.floor (ClampF64 g 0 255)).toNat,
            (Int.floor (ClampF64 b 0 255)).toNat,
            255⟩

/-- One step of the stable insertion sort modelling `sort.SliceStable`:
insert `c` before the first element whose red channel is not smaller,
keeping elements with equal red channel in their original relative order. -/
def insertRed (c : RGBA) : List RGBA → List RGBA
  | [] => [c]
  | d :: l => if d.R < c.R then d :: insertRed c l else c :: d :: l

/-- Stable insertion sort ascending by the red channel.  Go calls
`sort.SliceStable(pixels, func(i, j) { return pixels[i].R < pixels[j].R })`;
a stable sort's output is uniquely determined by the input and the key
(elements with equal keys keep their original relative order), so this
structurally recursive stable sort computes exactly the list
`sort.SliceStable` produces. -/
def sortByRed : List RGBA → List RGBA
  | [] => []
  | c :: l => insertRed c (sortByRed l)

/-- RedSortedImagePixels collects every pixel color in raster order (with
the same `At(...).RGBA()` / `uint8` conversion as `PixelColor`) and sorts
the sequence ascending by the red channel. -/
def RedSortedImagePixels (img : Image) : List RGBA :=
  sortByRed ((rasterCoords img).map fun xy => PixelColor img xy.1 xy.2)

/-- MeanColorOfRange, translated from `src/main.go` lines 196-212: the mean
color of `pixels[begin..end)`.  Go indexes `pixels[j]` for `begin ≤ j < end`
and panics if any index is out of range; when `begin ≥ end` no index is
read but `n = end - begin ≤ 0` and `uint8(0.0/float64(n))` is `NaN` for
`n = 0` (no defined result).  Both degenerate cases are modelled as `none`;
the caller `PaletteFromImage` is proved to avoid them.  The channel means
are float averages truncated by `uint8(...)`: for the sums and counts that
reach this function (each value < 256) the float average has the same
integer truncation as exact natural division. -/
def MeanColorOfRange (pixels : List RGBA) (b e : ℤ) : Option RGBA :=
  if 0 ≤ b ∧ b < e ∧ e ≤ (pixels.length : ℤ) then
    let seg := (pixels.drop b.toNat).take (e - b).toNat
    some ⟨(seg.map RGBA.R).sum / seg.length,
          (seg.map RGBA.G).sum / seg.length,
          (seg.map RGBA.B).sum / seg.length,
          255⟩
  else
    none

/-- The `estimatedPaletteSize` local of `PaletteFromImage`:
`min(max(paletteMaxSize, 2), len(pixels))`, written with the two clamp
helpers the source uses. -/
def estimatedPaletteSize (img : Image) (paletteMaxSize : ℤ) : ℤ :=
  ClampAboveInt (ClampBelowInt paletteMaxSize 2) ((RedSortedImagePixels img).length : ℤ)

/-- The `bucketSize` local of `PaletteFromImage`: `len(pixels)` divided by
`estimatedPaletteSize` with Go's truncating integer division. -/
def bucketSize (img : Image) (paletteMaxSize : ℤ) : ℤ :=
  ((RedSortedImagePixels img).length : ℤ).tdiv (estimatedPaletteSize img paletteMaxSize)

/-- PaletteFromImage, translated from `src/main.go` lines 162-193.  When
the image has no pixels, `estimatedPaletteSize` is 0 and the Go statement
`bucketSize := len(pixels) / estimatedPaletteSize` is an integer division
by zero, a runtime panic: that case is `none`.  Otherwise the loop appends,
for `i = 0, ..., estimatedPaletteSize-1`, the mean color of the bucket
`pixels[i*bucketSize : min(i*bucketSize+bucketSize, len(pixels))]`. -/
def PaletteFromImage (img : Image) (paletteMaxSize : ℤ) : Option (List RGBA) :=
  let pixels := RedSortedImagePixels img
  let eps := estimatedPaletteSize img paletteMaxSize
  if eps = 0 then none
  else
    let bs := ((pixels.length : ℤ)).tdiv eps
    (List.range eps.toNat).mapM fun (i : ℕ) =>
      MeanColorOfRange pixels ((i : ℤ) * bs) (ClampAboveInt ((i : ℤ) * bs + bs) (pixels.length : ℤ))

/-- The squared Euclidean RGB distance, `dr*dr + dg*dg + db*db` over exact
integers.  Go's `ColorDistance` returns `math.Sqrt` of exactly this value:
the three squared differences and their sum (at most `3*255²`) are exact in
`float64`, and the correctly rounded square root is strictly monotone on
these integers (consecutive candidate values differ by far more than one
ulp of the result), so every comparison the program makes between two
`ColorDistance` values coincides with the comparison of the squared
distances.  `NearestColor` only ever compares distances. -/
def ColorDistSq (c1 c2 : RGBA) : ℤ :=
  ((c1.R : ℤ) - c2.R) * ((c1.R : ℤ) - c2.R) +
  ((c1.G : ℤ) - c2.G) * ((c1.G : ℤ) - c2.G) +
  ((c1.B : ℤ) - c2.B) * ((c1.B : ℤ) - c2.B)

/-- The scan loop of `NearestColor`, carrying the running minimum distance
`minD` and the current best candidate `nearest`; a strict `<` updates the
pair, so on ties the earlier entry is kept. -/
def nearestLoop (c : RGBA) (minD : ℤ) (nearest : RGBA) : List RGBA → RGBA
  | [] => nearest
  | p :: rest =>
    if ColorDistSq c p < minD then nearestLoop c (ColorDistSq c p) p rest
    else nearestLoop c minD nearest rest

/-- NearestColor, translated from `src/main.go` lines 239-253: linear scan
starting from `palette[0]`.  On an empty palette Go panics at `palette[0]`
(index out of range): `none`. -/
def NearestColor (c : RGBA) (palette : List RGBA) : Option RGBA :=
  match palette with
  | [] => none
  | p0 :: rest => some (nearestLoop c (ColorDistSq c p0) p0 rest)

/-- Add, translated from `src/main.go` lines 286-293.  The channel sums
`c1.R + c2.R` are computed in Go on `uint8`, hence reduced mod 256 before
`ClampU8` sees them. -/
def Add (c1 c2 : RGBA) : RGBA :=
  ⟨ClampU8 ((c1.R + c2.R) % 256) 0 255,
   ClampU8 ((c1.G + c2.G) % 256) 0 255,
   ClampU8 ((c1.B + c2.B) % 256) 0 255,
   255⟩

/-- One `outImage.Set(x, y, c)` call on the output buffer. -/
def setPx (im : Image) (x y : ℤ) (c : RGBA) : Image :=
  { im with px := fun a b => if a = x ∧ b = y then c else im.px a b }

/-- The body of the pixel loop of `QuantizeImage`: read the source color,
dither it (with the palette length as `paletteSize`), then map it to the
nearest palette color. -/
def quantizePixel (img : Image) (palette : List RGBA) (bayerMatSize : ℤ) (x y : ℤ) :
    Option RGBA :=
  match BayerDithering (PixelColor img x y) x y (palette.length : ℤ) bayerMatSize with
  | none => none
  | some d => NearestColor d palette

/-- One iteration of the pixel loop: compute the output color for the
coordinate and write it into the output buffer. -/
def quantizeStep (img : Image) (palette : List RGBA) (bayerMatSize : ℤ)
    (acc : Image) (xy : ℤ × ℤ) : Option Image :=
  match quantizePixel img palette bayerMatSize xy.1 xy.2 with
  | none => none
  | some oc => some (setPx acc xy.1 xy.2 oc)

/-- QuantizeImage, translated from `src/main.go` lines 48-73: build the
palette once, allocate an output buffer with the input's bounds
(`image.NewRGBA` zero-initializes every pixel), then run the raster-order
pixel loop. -/
def QuantizeImage (img : Image) (paletteMaxSize bayerMatSize : ℤ) : Option Image :=
  match PaletteFromImage img paletteMaxSize with
  | none => none
  | some palette =>
    let init : Image := ⟨img.minX, img.minY, img.maxX, img.maxY, fun _ _ => ⟨0, 0, 0, 0⟩⟩
    (rasterCoords img).foldlM (quantizeStep img palette bayerMatSize) init

/-! ### Concrete images used by witnesses and counterexamples -/

/-- An image with empty bounds: zero pixels. -/
def emptyImg : Image := ⟨0, 0, 0, 0, fun _ _ => ⟨0, 0, 0, 255⟩⟩

/-- A one-pixel image whose single coordinate is `(-1, -1)` (Go's
`image.Rect` allows negative corners). -/
def negImg : Image := ⟨-1, -1, 0, 0, fun _ _ => ⟨5, 5, 5, 255⟩⟩

/-- A 1×3 image with three pixels of red values 10, 20, 99. -/
def img3 : Image :=
  ⟨0, 0, 1, 3, fun _ y =>
    if y = 0 then ⟨10, 10, 10, 255⟩
    else if y = 1 then ⟨20, 20, 20, 255⟩
    else ⟨99, 99, 99, 255⟩⟩

/-- A 1×1 gray image at the origin. -/
def img1x1 : Image := ⟨0, 0, 1, 1, fun _ _ => ⟨128, 128, 128, 255⟩⟩

/-- A 2×2 gray image at the origin. -/
def imgGray : Image := ⟨0, 0, 2, 2, fun _ _ => ⟨128, 128, 128, 255⟩⟩

/-! ### Bayer coefficient lemmas -/

/-- Every entry of the 2×2 table (and the out-of-range default 0) lies in
`[0, 2*2)`. -/
lemma bayerTable2_bound (j : ℕ) :
    0 ≤ bayerTable2.getD j 0 ∧ bayerTable2.getD j 0 < ((2 * 2 : ℤ) : ℚ) := by
  rcases Nat.lt_or_ge j bayerTable2.length with hj | hj
  · exact (by decide :
      ∀ j, j < bayerTable2.length →
        0 ≤ bayerTable2.getD j 0 ∧ bayerTable2.getD j 0 < ((2 * 2 : ℤ) : ℚ)) j hj
  · rw [List.getD_eq_default _ _ hj]; norm_num

/-- Every entry of the 4×4 table (and the out-of-range default 0) lies in
`[0, 4*4)`. -/
lemma bayerTable4_bound (j : ℕ) :
    0 ≤ bayerTable4.getD j 0 ∧ bayerTable4.getD j 0 < ((4 * 4 : ℤ) : ℚ) := by
  rcases Nat.lt_or_ge j bayerTable4.length with hj | hj
  · exact (by decide :
      ∀ j, j < bayerTable4.length →
        0 ≤ bayerTable4.getD j 0 ∧ bayerTable4.getD j 0 < ((4 * 4 : ℤ) : ℚ)) j hj
  · rw [List.getD_eq_default _ _ hj]; norm_num

/-- Every entry of the 8×8 table (and the out-of-range default 0) lies in
`[0, 8*8)`. -/
lemma bayerTable8_bound (j : ℕ) :
    0 ≤ bayerTable8.getD j 0 ∧ bayerTable8.getD j 0 < ((8 * 8 : ℤ) : ℚ) := by
  rcases Nat.lt_or_ge j bayerTable8.length with hj | hj
  · exact (by decide :
      ∀ j, j < bayerTable8.length →
        0 ≤ bayerTable8.getD j 0 ∧ bayerTable8.getD j 0 < ((8 * 8 : ℤ) : ℚ)) j hj
  · rw [List.getD_eq_default _ _ hj]; norm_num

/-- The coerced matrix size is always 2, 4 or 8. -/
lemma bayerSize_cases (m : ℤ) : bayerSize m = 2 ∨ bayerSize m = 4 ∨ bayerSize m = 8 := by
  unfold bayerSize
  split_ifs with h
  · exact Or.inr (Or.inr rfl)
  · omega

/-- Coercing twice is the same as coercing once. -/
lemma bayerSize_idem (m : ℤ) : bayerSize (bayerSize m) = bayerSize m := by
  rcases bayerSize_cases m with h | h | h <;> rw [h] <;> decide

/-- Characterisation of `BayerCoefficient x y o` for a size `o` that the
coercion leaves unchanged and nonnegative coordinates: the lookup succeeds
and the value is `table[(y mod o)*o + (x mod o)] / o² - 1/2`, which lies in
`[-1/2, 1/2)`. -/
lemma bayerCoefficient_spec_aux (x y o : ℤ) (hx : 0 ≤ x) (hy : 0 ≤ y) (ho : 0 < o)
    (hsize : bayerSize o = o)
    (hlen : ((bayerTableOf o).length : ℤ) = o * o)
    (htab : ∀ j : ℕ, 0 ≤ (bayerTableOf o).getD j 0 ∧
              (bayerTableOf o).getD j 0 < ((o * o : ℤ) : ℚ)) :
    BayerCoefficient x y o =
      some ((bayerTableOf o).getD (y % o * o + x % o).toNat 0 / ((o * o : ℤ) : ℚ) - 1/2) ∧
    -(1/2) ≤ (bayerTableOf o).getD (y % o * o + x % o).toNat 0 / ((o * o : ℤ) : ℚ) - 1/2 ∧
    (bayerTableOf o).getD (y % o * o + x % o).toNat 0 / ((o * o : ℤ) : ℚ) - 1/2 < 1/2 := by
  have hxo : x.tmod o = x % o := Int.tmod_eq_emod hx ho.le
  have hyo : y.tmod o = y % o := Int.tmod_eq_emod hy ho.le
  have ha0 : 0 ≤ x % o := Int.emod_nonneg x ho.ne'
  have hb0 : 0 ≤ y % o := Int.emod_nonneg y ho.ne'
  have ha1 : x % o < o := Int.emod_lt_of_pos x ho
  have hb1 : y % o < o := Int.emod_lt_of_pos y ho
  have hi0 : 0 ≤ y % o * o + x % o := add_nonneg (mul_nonneg hb0 ho.le) ha0
  have hilt : y % o * o + x % o < o * o := by
    have h1 : y % o ≤ o - 1 := by omega
    have h2 : y % o * o ≤ (o - 1) * o := mul_le_mul_of_nonneg_right h1 ho.le
    have h3 : (o - 1) * o = o * o - o := by ring
    linarith
  have heq : BayerCoefficient x y o =
      some ((bayerTableOf o).getD (y % o * o + x % o).toNat 0 / ((o * o : ℤ) : ℚ) - 1/2) := by
    simp only [BayerCoefficient, hsize, hxo, hyo]
    rw [if_pos ⟨hi0, by rw [hlen]; exact hilt⟩]
  have hq2 : (0 : ℚ) < ((o * o : ℤ) : ℚ) := by exact_mod_cast mul_pos ho ho
  have ht := htab (y % o * o + x % o).toNat
  refine ⟨heq, ?_, ?_⟩
  · have hdiv : 0 ≤ (bayerTableOf o).getD (y % o * o + x % o).toNat 0 / ((o * o : ℤ) : ℚ) :=
      div_nonneg ht.1 hq2.le
    linarith
  · have hdiv : (bayerTableOf o).getD (y % o * o + x % o).toNat 0 / ((o * o : ℤ) : ℚ) < 1 :=
      (div_lt_one hq2).2 ht.2
    linarith

/-- For nonnegative coordinates the Bayer lookup is always defined (any
matrix size, after coercion) and the coefficient lies in `[-1/2, 1/2)`. -/
lemma bayerCoefficient_some (x y m : ℤ) (hx : 0 ≤ x) (hy : 0 ≤ y) :
    ∃ q, BayerCoefficient x y m = some q ∧ -(1/2) ≤ q ∧ q < 1/2 := by
  have hred : BayerCoefficient x y m = BayerCoefficient x y (bayerSize m) := by
    unfold BayerCoefficient
    rw [bayerSize_idem]
  rw [hred]
  rcases bayerSize_cases m with h | h | h <;> rw [h]
  · obtain ⟨heq, hlo, hhi⟩ := bayerCoefficient_spec_aux x y 2 hx hy (by decide) (by decide)
      (by decide) bayerTable2_bound
    exact ⟨_, heq, hlo, hhi⟩
  · obtain ⟨heq, hlo, hhi⟩ := bayerCoefficient_spec_aux x y 4 hx hy (by decide) (by decide)
      (by decide) bayerTable4_bound
    exact ⟨_, heq, hlo, hhi⟩
  · obtain ⟨heq, hlo, hhi⟩ := bayerCoefficient_spec_aux x y 8 hx hy (by decide) (by decide)
      (by decide) bayerTable8_bound
    exact ⟨_, heq, hlo, hhi⟩

/-- For nonnegative coordinates and a nonzero palette size, dithering
returns a color. -/
lemma bayerDithering_isSome (c : RGBA) (x y ps m : ℤ) (hx : 0 ≤ x) (hy : 0 ≤ y)
    (hps : ps ≠ 0) : (BayerDithering c x y ps m).isSome = true := by
  obtain ⟨q, hq, -, -⟩ := bayerCoefficient_some x y m hx hy
  simp only [BayerDithering, hq, if_neg hps, Option.isSome_some]

/-- A clamped value, floored and sent to `ℕ`, is at most 255. -/
lemma clampF64_floor_le (q : ℚ) : (Int.floor (ClampF64 q 0 255)).toNat ≤ 255 := by
  have h : ClampF64 q 0 255 ≤ 255 := by
    unfold ClampF64
    split_ifs with h1 h2
    · norm_num
    · exact le_refl _
    · exact le_of_not_lt h2
  have h2 : Int.floor (ClampF64 q 0 255) ≤ 255 := by
    have := Int.floor_le_floor (le_trans h (by norm_num : (255 : ℚ) ≤ ((255 : ℤ) : ℚ)))
    rwa [Int.floor_intCast] at this
  omega

/-! ### Claims C5, C6, C7 — Bayer coefficient -/

/-- C5 (amended): for a matrix order in {2,4,8} and NONNEGATIVE coordinates
(x,y), BayerCoefficient is defined and equals
table[(y mod N)·N + (x mod N)]/N² − 0.5 over the fixed table for that
order, a value in [-0.5, 0.5).  For negative coordinates Go's truncated `%`
can make the table index negative and the lookup faults, so the claim's
"every pair of integers" fails (see the counterexample). -/
theorem bayerCoefficient_defined_in_range (x y o : ℤ) (hx : 0 ≤ x) (hy : 0 ≤ y)
    (ho : o = 2 ∨ o = 4 ∨ o = 8) :
    BayerCoefficient x y o =
      some ((bayerTableOf o).getD (y % o * o + x % o).toNat 0 / ((o * o : ℤ) : ℚ) - 1/2) ∧
    ∀ q ∈ BayerCoefficient x y o, -(1/2) ≤ q ∧ q < 1/2 := by
  rcases ho with h | h | h <;> subst h
  · have H := bayerCoefficient_spec_aux x y 2 hx hy (by decide) (by decide) (by decide)
      bayerTable2_bound
    refine ⟨H.1, fun q hq => ?_⟩
    rw [Option.mem_def, H.1] at hq
    cases Option.some.inj hq
    exact ⟨H.2.1, H.2.2⟩
  · have H := bayerCoefficient_spec_aux x y 4 hx hy (by decide) (by decide) (by decide)
      bayerTable4_bound
    refine ⟨H.1, fun q hq => ?_⟩
    rw [Option.mem_def, H.1] at hq
    cases Option.some.inj hq
    exact ⟨H.2.1, H.2.2⟩
  · have H := bayerCoefficient_spec_aux x y 8 hx hy (by decide) (by decide) (by decide)
      bayerTable8_bound
    refine ⟨H.1, fun q hq => ?_⟩
    rw [Option.mem_def, H.1] at hq
    cases Option.some.inj hq
    exact ⟨H.2.1, H.2.2⟩

/-- Witness for C5 at (x,y) = (3,5), order 4. -/
theorem bayerCoefficient_defined_in_range_witness :
    BayerCoefficient 3 5 4 =
      some ((bayerTableOf 4).getD ((5 : ℤ) % 4 * 4 + (3 : ℤ) % 4).toNat 0 /
        ((4 * 4 : ℤ) : ℚ) - 1/2) ∧
    ∀ q ∈ BayerCoefficient 3 5 4, -(1/2) ≤ q ∧ q < 1/2 :=
  bayerCoefficient_defined_in_range 3 5 4 (by decide) (by decide) (Or.inr (Or.inl rfl))

/-- C5 counterexample: at (x,y) = (-1,0) with order 2 the Go table index is
`(0 % 2)*2 + (-1 % 2) = -1` (truncated `%`), and `mat[-1]` panics — the
coefficient is not defined, contradicting "for every pair of integers
(x,y) ... is defined". -/
theorem bayerCoefficient_negative_coordinate_faults : BayerCoefficient (-1) 0 2 = none := rfl

/-- C6 (amended): BayerCoefficient is periodic with period `matrixOrder` in
both coordinates on NONNEGATIVE coordinates.  Crossing zero the Go
truncated `%` breaks periodicity: at x = -1 the lookup faults while at
x = -1 + 2 it succeeds (see the counterexample). -/
theorem bayerCoefficient_periodic (x y o : ℤ) (hx : 0 ≤ x) (hy : 0 ≤ y)
    (ho : o = 2 ∨ o = 4 ∨ o = 8) :
    BayerCoefficient (x + o) y o = BayerCoefficient x y o ∧
    BayerCoefficient x (y + o) o = BayerCoefficient x y o := by
  have hpos : 0 < o := by rcases ho with h | h | h <;> omega
  have hsize : bayerSize o = o := by rcases ho with h | h | h <;> subst h <;> decide
  have key : ∀ a : ℤ, 0 ≤ a → (a + o).tmod o = a.tmod o := by
    intro a ha
    rw [Int.tmod_eq_emod (by omega) hpos.le, Int.tmod_eq_emod ha hpos.le]
    have h1 : a + o = a + o * 1 := by ring
    rw [h1, Int.add_mul_emod_self_left]
  constructor
  · simp only [BayerCoefficient, hsize, key x hx]
  · simp only [BayerCoefficient, hsize, key y hy]

/-- Witness for C6 at (x,y) = (3,5), order 2. -/
theorem bayerCoefficient_periodic_witness :
    (BayerCoefficient (3 + 2) 5 2 = BayerCoefficient 3 5 2 ∧
     BayerCoefficient 3 (5 + 2) 2 = BayerCoefficient 3 5 2) :=
  bayerCoefficient_periodic 3 5 2 (by decide) (by decide) (Or.inl rfl)

/-- C6 counterexample: with order 2, at x = -1 the claimed identity
`BayerCoefficient(x + 2, y) = BayerCoefficient(x, y)` fails: the left side
is defined and the right side faults (negative table index). -/
theorem bayerCoefficient_periodic_counterexample :
    ¬ (BayerCoefficient (-1 + 2) 0 2 = BayerCoefficient (-1) 0 2) := by
  intro h
  have h1 : BayerCoefficient (-1) 0 2 = none := rfl
  have h2 : (BayerCoefficient (-1 + 2) 0 2).isSome = true := rfl
  rw [h, h1] at h2
  exact absurd h2 (by decide)

/-- C7: for any matrix order other than 2, 4 or 8 (and any coordinates,
also negative ones), the coefficient is computed exactly as for order 8:
the unsupported size is silently coerced, never an error. -/
theorem bayerCoefficient_unsupported_order (x y m : ℤ)
    (h2 : m ≠ 2) (h4 : m ≠ 4) (h8 : m ≠ 8) :
    BayerCoefficient x y m = BayerCoefficient x y 8 := by
  have hm : bayerSize m = 8 := by unfold bayerSize; rw [if_pos ⟨h2, h4, h8⟩]
  simp only [BayerCoefficient, hm, show bayerSize 8 = 8 from by decide]

/-- Witness for C7 at (x,y) = (3,7) and unsupported order 5. -/
theorem bayerCoefficient_unsupported_order_witness :
    BayerCoefficient 3 7 5 = BayerCoefficient 3 7 8 :=
  bayerCoefficient_unsupported_order 3 7 5 (by decide) (by decide) (by decide)

/-! ### Claim C8 — dithering output stays in range -/

/-- C8: whenever BayerDithering returns a color (paletteSize ≥ 1), every
R, G, B channel of that color lies in [0, 255] — the float
channel-plus-offset is clamped before the 8-bit conversion — and the alpha
channel is 255.  Moreover for nonnegative coordinates a color is indeed
returned, so the first conjunct is not vacuous. -/
theorem bayerDithering_output_clamped (c : RGBA) (x y ps m : ℤ) (hps : 1 ≤ ps) :
    (∀ out ∈ BayerDithering c x y ps m,
        out.R ≤ 255 ∧ out.G ≤ 255 ∧ out.B ≤ 255 ∧ out.A = 255) ∧
    (0 ≤ x → 0 ≤ y → (BayerDithering c x y ps m).isSome = true) := by
  constructor
  · intro out hout
    rw [Option.mem_def] at hout
    unfold BayerDithering at hout
    cases hbc : BayerCoefficient x y m with
    | none => rw [hbc] at hout; exact Option.noConfusion hout
    | some coef =>
      rw [hbc] at hout
      simp only [if_neg (show ¬ ps = 0 from by omega)] at hout
      cases Option.some.inj hout
      exact ⟨clampF64_floor_le _, clampF64_floor_le _, clampF64_floor_le _, rfl⟩
  · intro hx hy
    exact bayerDithering_isSome c x y ps m hx hy (by omega)

/-- Witness for C8: color (250,250,250), coordinates (0,1), palette size 2,
order 2 (an input whose raw offset 255/2 · (1/4) pushes channels past 255,
exercising the clamp). -/
theorem bayerDithering_output_clamped_witness :
    (1 : ℤ) ≤ 2 ∧
    ((∀ out ∈ BayerDithering ⟨250, 250, 250, 255⟩ 0 1 2 2,
        out.R ≤ 255 ∧ out.G ≤ 255 ∧ out.B ≤ 255 ∧ out.A = 255) ∧
     ((0 : ℤ) ≤ 0 → (0 : ℤ) ≤ 1 →
        (BayerDithering ⟨250, 250, 250, 255⟩ 0 1 2 2).isSome = true)) :=
  ⟨by decide, bayerDithering_output_clamped ⟨250, 250, 250, 255⟩ 0 1 2 2 (by decide)⟩

/-! ### Claim C9 — Add wraps instead of saturating -/

/-- C9 evidence: the channel sums in `Add` are `uint8` additions, which
wrap modulo 256 BEFORE `ClampU8(·, 0, 255)` sees them, and clamping a
`uint8` to [0,255] is the identity.  At (200,200,200)+(200,200,200) the
code produces channel 144 = 400 mod 256, not the saturated min(400,255) =
255 the claim (and the spec's "clamped scalar operations") prescribes. -/
theorem add_wraps_at_200 :
    Add ⟨200, 200, 200, 255⟩ ⟨200, 200, 200, 255⟩ = ⟨144, 144, 144, 255⟩ ∧
    (144 : ℕ) ≠ min (200 + 200) 255 := by decide

/-! ### Claim C4 — nearest color is the first argmin -/

/-- Squared distances are nonnegative. -/
lemma colorDistSq_nonneg (c1 c2 : RGBA) : 0 ≤ ColorDistSq c1 c2 := by
  unfold ColorDistSq
  have h1 := mul_self_nonneg ((c1.R : ℤ) - c2.R)
  have h2 := mul_self_nonneg ((c1.G : ℤ) - c2.G)
  have h3 := mul_self_nonneg ((c1.B : ℤ) - c2.B)
  linarith

/-- Unfolding equation for one loop iteration. -/
lemma nearestLoop_cons (c : RGBA) (minD : ℤ) (nearest p : RGBA) (rest : List RGBA) :
    nearestLoop c minD nearest (p :: rest) =
      if ColorDistSq c p < minD then nearestLoop c (ColorDistSq c p) p rest
      else nearestLoop c minD nearest rest := rfl

/-- The scan loop started on `best` with the remaining entries `l` returns
the element of `best :: l` at the least index minimizing the (squared)
distance to `c`: no entry is strictly closer, and every entry at a smaller
index is strictly farther. -/
lemma nearestLoop_spec (c : RGBA) (l : List RGBA) :
    ∀ best : RGBA,
      ∃ (i : ℕ) (hi : i < (best :: l).length),
        nearestLoop c (ColorDistSq c best) best l = (best :: l)[i] ∧
        (∀ (j : ℕ) (hj : j < (best :: l).length),
            ColorDistSq c ((best :: l)[i]) ≤ ColorDistSq c ((best :: l)[j])) ∧
        (∀ (j : ℕ) (hj : j < (best :: l).length), j < i →
            ColorDistSq c ((best :: l)[i]) < ColorDistSq c ((best :: l)[j])) := by
  induction l with
  | nil =>
    intro best
    refine ⟨0, by simp, rfl, ?_, ?_⟩
    · intro j hj
      have hj0 : j = 0 := by simp at hj; omega
      subst hj0
      exact le_refl _
    · intro j hj hji
      omega
  | cons p rest ih =>
    intro best
    by_cases hlt : ColorDistSq c p < ColorDistSq c best
    · obtain ⟨i, hi, heq, hmin, hfirst⟩ := ih p
      have hi2 : i + 1 < (best :: p :: rest).length := by
        simp only [List.length_cons] at hi ⊢; omega
      refine ⟨i + 1, hi2, ?_, ?_, ?_⟩
      · rw [nearestLoop_cons, if_pos hlt, heq, List.getElem_cons_succ]
      · intro j hj
        rw [List.getElem_cons_succ]
        cases j with
        | zero =>
          rw [List.getElem_cons_zero]
          have h0 := hmin 0 (by simp)
          rw [List.getElem_cons_zero] at h0
          linarith
        | succ jj =>
          rw [List.getElem_cons_succ]
          exact hmin jj (by simp only [List.length_cons] at hj ⊢; omega)
      · intro j hj hji
        rw [List.getElem_cons_succ]
        cases j with
        | zero =>
          rw [List.getElem_cons_zero]
          have h0 := hmin 0 (by simp)
          rw [List.getElem_cons_zero] at h0
          linarith
        | succ jj =>
          rw [List.getElem_cons_succ]
          exact hfirst jj (by simp only [List.length_cons] at hj ⊢; omega) (by omega)
    · obtain ⟨i, hi, heq, hmin, hfirst⟩ := ih best
      have hbp : ColorDistSq c best ≤ ColorDistSq c p := le_of_not_lt hlt
      cases i with
      | zero =>
        rw [List.getElem_cons_zero] at heq
        refine ⟨0, by simp, ?_, ?_, ?_⟩
        · rw [nearestLoop_cons, if_neg hlt, heq, List.getElem_cons_zero]
        · intro j hj
          rw [List.getElem_cons_zero]
          cases j with
          | zero => rw [List.getElem_cons_zero]
          | succ jj =>
            rw [List.getElem_cons_succ]
            cases jj with
            | zero => rw [List.getElem_cons_zero]; exact hbp
            | succ n =>
              rw [List.getElem_cons_succ]
              have h1 := hmin (n + 1) (by simp only [List.length_cons] at hj ⊢; omega)
              rw [List.getElem_cons_zero, List.getElem_cons_succ] at h1
              exact h1
        · intro j hj hji
          omega
      | succ k =>
        rw [List.getElem_cons_succ] at heq
        have hk : k < rest.length := by simp only [List.length_cons] at hi; omega
        have hk2 : k + 2 < (best :: p :: rest).length := by
          simp only [List.length_cons]; omega
        have hres : ∀ (hj : k + 1 < (best :: rest).length),
            (best :: rest)[k + 1] = rest[k] := fun hj => List.getElem_cons_succ ..
        refine ⟨k + 2, hk2, ?_, ?_, ?_⟩
        · rw [nearestLoop_cons, if_neg hlt, heq, List.getElem_cons_succ,
            List.getElem_cons_succ]
        · intro j hj
          rw [List.getElem_cons_succ, List.getElem_cons_succ]
          cases j with
          | zero =>
            rw [List.getElem_cons_zero]
            have h1 := hmin 0 (by simp)
            rw [List.getElem_cons_succ, List.getElem_cons_zero] at h1
            exact h1
          | succ jj =>
            rw [List.getElem_cons_succ]
            cases jj with
            | zero =>
              rw [List.getElem_cons_zero]
              have h1 := hmin 0 (by simp)
              rw [List.getElem_cons_succ, List.getElem_cons_zero] at h1
              exact le_trans h1 hbp
            | succ n =>
              rw [List.getElem_cons_succ]
              have h1 := hmin (n + 1) (by simp only [List.length_cons] at hj ⊢; omega)
              rw [List.getElem_cons_succ, List.getElem_cons_succ] at h1
              exact h1
        · intro j hj hji
          rw [List.getElem_cons_succ, List.getElem_cons_succ]
          cases j with
          | zero =>
            rw [List.getElem_cons_zero]
            have h1 := hfirst 0 (by simp) (by omega)
            rw [List.getElem_cons_succ, List.getElem_cons_zero] at h1
            exact h1
          | succ jj =>
            rw [List.getElem_cons_succ]
            cases jj with
            | zero =>
              rw [List.getElem_cons_zero]
              have h1 := hfirst 0 (by simp) (by omega)
              rw [List.getElem_cons_succ, List.getElem_cons_zero] at h1
              exact lt_of_lt_of_le h1 hbp
            | succ n =>
              rw [List.getElem_cons_succ]
              have h1 := hfirst (n + 1)
                (by simp only [List.length_cons] at hj ⊢; omega) (by omega)
              rw [List.getElem_cons_succ, List.getElem_cons_succ] at h1
              exact h1

/-- C4: on a nonempty palette, NearestColor returns an element physically
present in the palette: the first element in scan order whose Euclidean
RGB distance `sqrt(ΔR² + ΔG² + ΔB²)` to the query is minimal (first
occurrence wins on exact ties).  The comparison of real square roots is
stated directly; it coincides with the comparison of the exact squared
distances the model scans with, which in turn coincides with the float
comparisons of the Go code (see `ColorDistSq`). -/
theorem nearestColor_first_argmin (c : RGBA) (palette : List RGBA) (h : palette ≠ []) :
    ∃ (i : ℕ) (hi : i < palette.length),
      NearestColor c palette = some palette[i] ∧
      palette[i] ∈ palette ∧
      (∀ (j : ℕ) (hj : j < palette.length),
          Real.sqrt ((ColorDistSq c palette[i] : ℤ) : ℝ) ≤
            Real.sqrt ((ColorDistSq c palette[j] : ℤ) : ℝ)) ∧
      (∀ (j : ℕ) (hj : j < palette.length), j < i →
          Real.sqrt ((ColorDistSq c palette[i] : ℤ) : ℝ) <
            Real.sqrt ((ColorDistSq c palette[j] : ℤ) : ℝ)) := by
  cases palette with
  | nil => exact absurd rfl h
  | cons p0 rest =>
    obtain ⟨i, hi, heq, hmin, hfirst⟩ := nearestLoop_spec c rest p0
    refine ⟨i, hi, ?_, List.getElem_mem hi, ?_, ?_⟩
    · simp only [NearestColor]
      rw [heq]
    · intro j hj
      exact Real.sqrt_le_sqrt (by exact_mod_cast hmin j hj)
    · intro j hj hji
      refine Real.sqrt_lt_sqrt ?_ (by exact_mod_cast hfirst j hj hji)
      exact_mod_cast colorDistSq_nonneg c ((p0 :: rest)[i])

/-- Witness for C4: the spec's own example palette {(0,0,0),(255,255,255)}
and query (100,100,100). -/
theorem nearestColor_first_argmin_witness :
    ([⟨0, 0, 0, 255⟩, ⟨255, 255, 255, 255⟩] : List RGBA) ≠ [] ∧
    ∃ (i : ℕ) (hi : i < ([⟨0, 0, 0, 255⟩, ⟨255, 255, 255, 255⟩] : List RGBA).length),
      NearestColor ⟨100, 100, 100, 255⟩ [⟨0, 0, 0, 255⟩, ⟨255, 255, 255, 255⟩] =
        some ([⟨0, 0, 0, 255⟩, ⟨255, 255, 255, 255⟩] : List RGBA)[i] ∧
      ([⟨0, 0, 0, 255⟩, ⟨255, 255, 255, 255⟩] : List RGBA)[i] ∈
        ([⟨0, 0, 0, 255⟩, ⟨255, 255, 255, 255⟩] : List RGBA) ∧
      (∀ (j : ℕ) (hj : j < ([⟨0, 0, 0, 255⟩, ⟨255, 255, 255, 255⟩] : List RGBA).length),
          Real.sqrt ((ColorDistSq ⟨100, 100, 100, 255⟩
              ([⟨0, 0, 0, 255⟩, ⟨255, 255, 255, 255⟩] : List RGBA)[i] : ℤ) : ℝ) ≤
            Real.sqrt ((ColorDistSq ⟨100, 100, 100, 255⟩
              ([⟨0, 0, 0, 255⟩, ⟨255, 255, 255, 255⟩] : List RGBA)[j] : ℤ) : ℝ)) ∧
      (∀ (j : ℕ) (hj : j < ([⟨0, 0, 0, 255⟩, ⟨255, 255, 255, 255⟩] : List RGBA).length),
          j < i →
          Real.sqrt ((ColorDistSq ⟨100, 100, 100, 255⟩
              ([⟨0, 0, 0, 255⟩, ⟨255, 255, 255, 255⟩] : List RGBA)[i] : ℤ) : ℝ) <
            Real.sqrt ((ColorDistSq ⟨100, 100, 100, 255⟩
              ([⟨0, 0, 0, 255⟩, ⟨255, 255, 255, 255⟩] : List RGBA)[j] : ℤ) : ℝ)) :=
  ⟨by decide, nearestColor_first_argmin ⟨100, 100, 100, 255⟩
    [⟨0, 0, 0, 255⟩, ⟨255, 255, 255, 255⟩] (by decide)⟩

/-! ### Palette construction lemmas -/

/-- Inserting adds one element. -/
lemma length_insertRed (c : RGBA) (l : List RGBA) :
    (insertRed c l).length = l.length + 1 := by
  induction l with
  | nil => rfl
  | cons d l ih =>
    simp only [insertRed]
    split_ifs with h
    · simp only [List.length_cons, ih]
    · simp only [List.length_cons]

/-- Sorting preserves length. -/
lemma length_sortByRed (l : List RGBA) : (sortByRed l).length = l.length := by
  induction l with
  | nil => rfl
  | cons c l ih => simp only [sortByRed, length_insertRed, ih, List.length_cons]

/-- Summing a constant over a list multiplies it by the length. -/
lemma sum_map_const {α : Type} (l : List α) (n : ℕ) :
    (l.map (fun _ => n)).sum = l.length * n := by
  induction l with
  | nil => simp
  | cons a l ih => simp [ih, Nat.succ_mul, Nat.add_comm]

/-- The raster scan visits exactly width·height coordinates. -/
lemma length_rasterCoords (img : Image) :
    (rasterCoords img).length = numPixels img := by
  unfold rasterCoords numPixels
  rw [List.length_flatMap]
  simp only [Function.comp_def, List.length_map, List.length_range]
  rw [sum_map_const, List.length_range, Nat.mul_comm]

/-- The collected pixel sequence has one entry per pixel. -/
lemma length_redSortedImagePixels (img : Image) :
    (RedSortedImagePixels img).length = numPixels img := by
  unfold RedSortedImagePixels
  rw [length_sortByRed, List.length_map, length_rasterCoords]

/-- The two clamps of `PaletteFromImage` compute `min(max(k,2), pixelCount)`. -/
lemma estimatedPaletteSize_eq (img : Image) (k : ℤ) :
    estimatedPaletteSize img k = min (max k 2) ((numPixels img : ℕ) : ℤ) := by
  unfold estimatedPaletteSize ClampAboveInt ClampBelowInt
  rw [length_redSortedImagePixels]
  split_ifs <;> omega

/-- A `mapM` over `Option` whose every application succeeds returns a list
of the same length holding exactly the produced values. -/
lemma mapM_option_spec {α β : Type} (f : α → Option β) :
    ∀ l : List α, (∀ a ∈ l, (f a).isSome = true) →
      ∃ l2, l.mapM f = some l2 ∧ l2.length = l.length ∧
        ∀ (i : ℕ) (hi : i < l.length) (hi2 : i < l2.length), f l[i] = some l2[i] := by
  intro l
  induction l with
  | nil =>
    intro h
    refine ⟨[], rfl, rfl, ?_⟩
    intro i hi hi2
    exact absurd hi (by simp)
  | cons a l ih =>
    intro h
    obtain ⟨b, hb⟩ := Option.isSome_iff_exists.mp (h a (List.mem_cons_self a l))
    obtain ⟨l2, hl2, hlen, hidx⟩ := ih (fun x hx => h x (List.mem_cons_of_mem a hx))
    refine ⟨b :: l2, ?_, by simp [hlen], ?_⟩
    · show List.mapM f (a :: l) = some (b :: l2)
      rw [List.mapM_cons, hb, hl2]
      rfl
    · intro i hi hi2
      cases i with
      | zero => simpa using hb
      | succ n =>
        simp only [List.getElem_cons_succ]
        exact hidx n (by simp only [List.length_cons] at hi; omega)
          (by simp only [List.length_cons] at hi2; omega)

/-- A successful bucket mean always has opaque alpha. -/
lemma meanColorOfRange_alpha (pixels : List RGBA) (b e : ℤ) (out : RGBA)
    (h : MeanColorOfRange pixels b e = some out) : out.A = 255 := by
  unfold MeanColorOfRange at h
  by_cases hg : 0 ≤ b ∧ b < e ∧ e ≤ (pixels.length : ℤ)
  · rw [if_pos hg] at h
    cases Option.some.inj h
    rfl
  · rw [if_neg hg] at h
    exact Option.noConfusion h

/-- The palette construction on a nonempty image: it succeeds, its length
is `estimatedPaletteSize`, the bucket width is at least 1, all
`estimatedPaletteSize` buckets of exactly `bucketSize` pixels fit inside
the pixel sequence, and entry `i` is the mean color of bucket `i` —
`pixels[i*bucketSize : i*bucketSize + bucketSize]` (the clamp on the
bucket end never fires). -/
lemma paletteFromImage_spec (img : Image) (k : ℤ) (h : 0 < numPixels img) :
    ∃ p, PaletteFromImage img k = some p ∧
      (p.length : ℤ) = estimatedPaletteSize img k ∧
      1 ≤ bucketSize img k ∧
      estimatedPaletteSize img k * bucketSize img k ≤ ((numPixels img : ℕ) : ℤ) ∧
      ∀ (i : ℕ) (hi : i < p.length),
        MeanColorOfRange (RedSortedImagePixels img)
          ((i : ℤ) * bucketSize img k)
          ((i : ℤ) * bucketSize img k + bucketSize img k) = some p[i] := by
  have hL : ((RedSortedImagePixels img).length : ℤ) = ((numPixels img : ℕ) : ℤ) := by
    rw [length_redSortedImagePixels]
  have hL1 : 1 ≤ ((RedSortedImagePixels img).length : ℤ) := by omega
  have heps1 : 1 ≤ estimatedPaletteSize img k := by
    rw [estimatedPaletteSize_eq]; omega
  have hepsL : estimatedPaletteSize img k ≤ ((RedSortedImagePixels img).length : ℤ) := by
    rw [estimatedPaletteSize_eq]; omega
  have hbs : bucketSize img k =
      ((RedSortedImagePixels img).length : ℤ) / estimatedPaletteSize img k :=
    Int.tdiv_eq_ediv (by omega) (by omega)
  have hbs1 : 1 ≤ bucketSize img k := by
    rw [hbs]
    exact (Int.le_ediv_iff_mul_le (by omega)).2 (by omega)
  have hmul : estimatedPaletteSize img k * bucketSize img k ≤
      ((RedSortedImagePixels img).length : ℤ) := by
    rw [hbs]
    have hdm := Int.ediv_add_emod ((RedSortedImagePixels img).length : ℤ)
      (estimatedPaletteSize img k)
    have hm0 := Int.emod_nonneg ((RedSortedImagePixels img).length : ℤ)
      (show estimatedPaletteSize img k ≠ 0 from by omega)
    linarith
  have hfit : ∀ i : ℕ, (i : ℤ) < estimatedPaletteSize img k →
      (i : ℤ) * bucketSize img k + bucketSize img k ≤
        ((RedSortedImagePixels img).length : ℤ) := by
    intro i hi
    have h1 : (i : ℤ) + 1 ≤ estimatedPaletteSize img k := by omega
    have h2 : ((i : ℤ) + 1) * bucketSize img k ≤
        estimatedPaletteSize img k * bucketSize img k :=
      mul_le_mul_of_nonneg_right h1 (by omega)
    have h3 : ((i : ℤ) + 1) * bucketSize img k =
        (i : ℤ) * bucketSize img k + bucketSize img k := by ring
    linarith
  have hclamp : ∀ i : ℕ, (i : ℤ) < estimatedPaletteSize img k →
      ClampAboveInt ((i : ℤ) * bucketSize img k + bucketSize img k)
          ((RedSortedImagePixels img).length : ℤ)
        = (i : ℤ) * bucketSize img k + bucketSize img k := by
    intro i hi
    unfold ClampAboveInt
    rw [if_neg]
    have := hfit i hi
    omega
  have hsome : ∀ i : ℕ, (i : ℤ) < estimatedPaletteSize img k →
      (MeanColorOfRange (RedSortedImagePixels img)
        ((i : ℤ) * bucketSize img k)
        ((i : ℤ) * bucketSize img k + bucketSize img k)).isSome = true := by
    intro i hi
    have hb0 : 0 ≤ (i : ℤ) * bucketSize img k := mul_nonneg (by omega) (by omega)
    unfold MeanColorOfRange
    rw [if_pos ⟨hb0, by omega, hfit i hi⟩]
    rfl
  obtain ⟨p, hmapM, hlen, hidx⟩ := mapM_option_spec
    (fun i : ℕ => MeanColorOfRange (RedSortedImagePixels img)
      ((i : ℤ) * bucketSize img k)
      (ClampAboveInt ((i : ℤ) * bucketSize img k + bucketSize img k)
        ((RedSortedImagePixels img).length : ℤ)))
    (List.range (estimatedPaletteSize img k).toNat)
    (by
      intro a ha
      rw [List.mem_range] at ha
      have ha2 : (a : ℤ) < estimatedPaletteSize img k := by omega
      show (MeanColorOfRange (RedSortedImagePixels img) ((a : ℤ) * bucketSize img k)
        (ClampAboveInt ((a : ℤ) * bucketSize img k + bucketSize img k)
          ((RedSortedImagePixels img).length : ℤ))).isSome = true
      rw [hclamp a ha2]
      exact hsome a ha2)
  have hplen : (p.length : ℤ) = estimatedPaletteSize img k := by
    rw [hlen, List.length_range]
    omega
  refine ⟨p, ?_, hplen, hbs1, by omega, ?_⟩
  · simp only [PaletteFromImage]
    rw [if_neg (show ¬ estimatedPaletteSize img k = 0 from by omega)]
    rw [show (((RedSortedImagePixels img).length : ℤ)).tdiv (estimatedPaletteSize img k)
      = bucketSize img k from rfl]
    exact hmapM
  · intro i hi
    have hi2 : i < (List.range (estimatedPaletteSize img k).toNat).length := by
      rw [List.length_range]
      omega
    have h1 := hidx i hi2 hi
    rw [List.getElem_range] at h1
    rw [hclamp i (by omega)] at h1
    exact h1

/-! ### Claim C10 — totality of PaletteFromImage -/

/-- C10: PaletteFromImage is total exactly on images with at least one
pixel: then the divisor `estimatedPaletteSize` is at least 1 and all
bucket indices are in bounds, so the construction returns a palette; on a
zero-pixel image `estimatedPaletteSize` is 0 and
`len(pixels) / estimatedPaletteSize` is an integer division by zero
(modelled as the `none` fault). -/
theorem paletteFromImage_totality (img : Image) (k : ℤ) :
    (0 < numPixels img →
      1 ≤ estimatedPaletteSize img k ∧ (PaletteFromImage img k).isSome = true) ∧
    (numPixels img = 0 →
      estimatedPaletteSize img k = 0 ∧ PaletteFromImage img k = none) := by
  constructor
  · intro h
    obtain ⟨p, hp, -, -, -, -⟩ := paletteFromImage_spec img k h
    refine ⟨by rw [estimatedPaletteSize_eq]; omega, by rw [hp]; rfl⟩
  · intro h
    have he : estimatedPaletteSize img k = 0 := by
      rw [estimatedPaletteSize_eq]; omega
    refine ⟨he, ?_⟩
    simp only [PaletteFromImage]
    rw [if_pos he]

/-- Witness for C10: a 1×1 image (total) and the empty image (faults). -/
theorem paletteFromImage_totality_witness :
    (0 < numPixels img1x1 ∧
      (1 ≤ estimatedPaletteSize img1x1 4 ∧ (PaletteFromImage img1x1 4).isSome = true)) ∧
    (numPixels emptyImg = 0 ∧
      (estimatedPaletteSize emptyImg 4 = 0 ∧ PaletteFromImage emptyImg 4 = none)) :=
  ⟨⟨by decide, (paletteFromImage_totality img1x1 4).1 (by decide)⟩,
   ⟨by decide, (paletteFromImage_totality emptyImg 4).2 (by decide)⟩⟩

/-! ### Claim C2 — palette length -/

/-- C2 (amended): for every image WITH AT LEAST ONE PIXEL and every integer
k, PaletteFromImage returns a palette of length exactly
`min(max(k,2), pixelCount)`.  For a zero-pixel image nothing is returned:
the construction faults with a division by zero (see the counterexample
and C10). -/
theorem paletteFromImage_length_min_max (img : Image) (k : ℤ) (h : 0 < numPixels img) :
    ∃ p, PaletteFromImage img k = some p ∧
      (p.length : ℤ) = min (max k 2) ((numPixels img : ℕ) : ℤ) := by
  obtain ⟨p, hp, hlen, -, -, -⟩ := paletteFromImage_spec img k h
  exact ⟨p, hp, by rw [hlen, estimatedPaletteSize_eq]⟩

/-- Witness for C2 on the 3-pixel image with k = 5 (the pixel count, not
k, is the binding bound: the length is min(max(5,2), 3) = 3). -/
theorem paletteFromImage_length_min_max_witness :
    0 < numPixels img3 ∧
    ∃ p, PaletteFromImage img3 5 = some p ∧
      (p.length : ℤ) = min (max 5 2) ((numPixels img3 : ℕ) : ℤ) :=
  ⟨by decide, paletteFromImage_length_min_max img3 5 (by decide)⟩

/-- C2 counterexample: on the zero-pixel image the claim's universally
quantified statement fails — PaletteFromImage returns no sequence at all
(Go panics with an integer division by zero). -/
theorem paletteFromImage_length_empty_counterexample :
    ¬ ∃ p, PaletteFromImage emptyImg 4 = some p ∧
        (p.length : ℤ) = min (max 4 2) ((numPixels emptyImg : ℕ) : ℤ) := by
  rintro ⟨p, hp, -⟩
  rw [show PaletteFromImage emptyImg 4 = none from rfl] at hp
  exact Option.noConfusion hp

/-! ### Claim C3 — bucket partition and bucket means -/

/-- C3 (amended): the red-sorted pixel sequence is cut into
`estimatedPaletteSize` contiguous buckets of EXACTLY
`bucketSize = pixelCount / estimatedPaletteSize` pixels each; the final
bucket also has exactly `bucketSize` pixels — its end index
`estimatedPaletteSize * bucketSize` is at most `pixelCount`, so the clamp
on the bucket end never fires and the trailing
`pixelCount mod estimatedPaletteSize` pixels of the sorted sequence
contribute to NO bucket.  Each palette entry is the per-channel mean of
its bucket truncated to 8 bits, with alpha opaque. -/
theorem paletteFromImage_bucket_means (img : Image) (k : ℤ) (h : 0 < numPixels img) :
    ∃ p, PaletteFromImage img k = some p ∧
      (p.length : ℤ) = estimatedPaletteSize img k ∧
      1 ≤ bucketSize img k ∧
      estimatedPaletteSize img k * bucketSize img k ≤ ((numPixels img : ℕ) : ℤ) ∧
      ∀ (i : ℕ) (hi : i < p.length),
        MeanColorOfRange (RedSortedImagePixels img)
            ((i : ℤ) * bucketSize img k)
            ((i : ℤ) * bucketSize img k + bucketSize img k) = some p[i] ∧
        p[i].A = 255 := by
  obtain ⟨p, hp, hlen, hbs, hmul, hidx⟩ := paletteFromImage_spec img k h
  exact ⟨p, hp, hlen, hbs, hmul, fun i hi =>
    ⟨hidx i hi, meanColorOfRange_alpha _ _ _ _ (hidx i hi)⟩⟩

/-- Witness for C3 on the 3-pixel image with k = 2. -/
theorem paletteFromImage_bucket_means_witness :
    0 < numPixels img3 ∧
    ∃ p, PaletteFromImage img3 2 = some p ∧
      (p.length : ℤ) = estimatedPaletteSize img3 2 ∧
      1 ≤ bucketSize img3 2 ∧
      estimatedPaletteSize img3 2 * bucketSize img3 2 ≤ ((numPixels img3 : ℕ) : ℤ) ∧
      ∀ (i : ℕ) (hi : i < p.length),
        MeanColorOfRange (RedSortedImagePixels img3)
            ((i : ℤ) * bucketSize img3 2)
            ((i : ℤ) * bucketSize img3 2 + bucketSize img3 2) = some p[i] ∧
        p[i].A = 255 :=
  ⟨by decide, paletteFromImage_bucket_means img3 2 (by decide)⟩

/-- C3 counterexample: on the 3-pixel image (red values 10, 20, 99) with
k = 2 we have `bucketSize = 3 / 2 = 1`.  The claim says the final bucket
extends to the end of the sequence, i.e. is `pixels[1..3)`, whose mean is
(59,59,59) — so the claimed palette is [(10,10,10), (59,59,59)].  The code
instead produces [(10,10,10), (20,20,20)]: the final bucket is
`pixels[1..2)` and the remainder pixel (99,99,99) contributes to no
bucket. -/
theorem paletteFromImage_remainder_dropped :
    PaletteFromImage img3 2 = some [⟨10, 10, 10, 255⟩, ⟨20, 20, 20, 255⟩] ∧
    MeanColorOfRange (RedSortedImagePixels img3) 1 3 = some ⟨59, 59, 59, 255⟩ ∧
    ¬ PaletteFromImage img3 2 = some [⟨10, 10, 10, 255⟩, ⟨59, 59, 59, 255⟩] := by
  refine ⟨by decide, by decide, by decide⟩

/-! ### Claim C1 — the full pipeline -/

/-- A coordinate is visited by the raster scan iff it lies in the bounds
rectangle. -/
lemma mem_rasterCoords (img : Image) (x y : ℤ) :
    (x, y) ∈ rasterCoords img ↔
      img.minX ≤ x ∧ x < img.maxX ∧ img.minY ≤ y ∧ y < img.maxY := by
  unfold rasterCoords
  rw [List.mem_flatMap]
  constructor
  · rintro ⟨j, hj, hmem⟩
    rw [List.mem_range] at hj
    rw [List.mem_map] at hmem
    obtain ⟨i, hi, heq⟩ := hmem
    rw [List.mem_range] at hi
    cases heq
    omega
  · rintro ⟨h1, h2, h3, h4⟩
    refine ⟨(y - img.minY).toNat, by rw [List.mem_range]; omega, ?_⟩
    rw [List.mem_map]
    refine ⟨(x - img.minX).toNat, by rw [List.mem_range]; omega, ?_⟩
    have hxx : img.minX + (((x - img.minX).toNat : ℕ) : ℤ) = x := by omega
    have hyy : img.minY + (((y - img.minY).toNat : ℕ) : ℤ) = y := by omega
    rw [hxx, hyy]

/-- The raster scan visits each coordinate at most once. -/
lemma nodup_rasterCoords (img : Image) : (rasterCoords img).Nodup := by
  unfold rasterCoords
  rw [List.nodup_flatMap]
  constructor
  · intro j hj
    refine List.Nodup.map ?_ (List.nodup_range _)
    intro i1 i2 hi
    have h1 := congrArg Prod.fst hi
    simp only at h1
    omega
  · refine List.Pairwise.imp ?_ (List.pairwise_lt_range _)
    intro j1 j2 hlt a ha1 ha2
    rw [List.mem_map] at ha1 ha2
    obtain ⟨i1, -, h1⟩ := ha1
    obtain ⟨i2, -, h2⟩ := ha2
    rw [← h2] at h1
    have h3 := congrArg Prod.snd h1
    simp only at h3
    omega

/-- In a duplicate-free list every member occurs exactly once. -/
lemma count_eq_one_of_nodup_mem {α : Type} [BEq α] [LawfulBEq α] {l : List α} {a : α}
    (hn : l.Nodup) (hm : a ∈ l) : l.count a = 1 := by
  induction l with
  | nil => simp at hm
  | cons b l ih =>
    rw [List.count_cons]
    rcases List.mem_cons.mp hm with h | h
    · subst h
      rw [List.count_eq_zero.mpr (by simpa using (List.nodup_cons.mp hn).1)]
      simp
    · rw [ih (List.nodup_cons.mp hn).2 h]
      have hne : ¬ (b == a) = true := by
        intro hc
        have hba := eq_of_beq hc
        subst hba
        exact (List.nodup_cons.mp hn).1 h
      simp [hne]

/-- On a nonempty palette the linear scan returns a color. -/
lemma nearestColor_isSome (c : RGBA) (palette : List RGBA) (h : palette ≠ []) :
    ∃ r, NearestColor c palette = some r := by
  cases palette with
  | nil => exact absurd rfl h
  | cons p0 rest => exact ⟨_, rfl⟩

/-- Running the write loop over a coordinate list on which every per-pixel
transform succeeds: the loop succeeds, the bounds of the buffer are
unchanged, every visited coordinate holds exactly the value the transform
computes for it (from the source image and the palette only), and every
other coordinate is untouched. -/
lemma foldlM_quantizeStep_spec (img : Image) (palette : List RGBA) (m : ℤ) :
    ∀ (coords : List (ℤ × ℤ)) (acc : Image),
      (∀ xy ∈ coords, (quantizePixel img palette m xy.1 xy.2).isSome = true) →
      ∃ out, List.foldlM (quantizeStep img palette m) acc coords = some out ∧
        out.minX = acc.minX ∧ out.minY = acc.minY ∧
        out.maxX = acc.maxX ∧ out.maxY = acc.maxY ∧
        (∀ x y, (x, y) ∈ coords →
          quantizePixel img palette m x y = some (out.px x y)) ∧
        (∀ x y, (x, y) ∉ coords → out.px x y = acc.px x y) := by
  intro coords
  induction coords with
  | nil =>
    intro acc h
    exact ⟨acc, rfl, rfl, rfl, rfl, rfl, by simp, fun x y hx => rfl⟩
  | cons xy rest ih =>
    intro acc h
    obtain ⟨c0, hc0⟩ := Option.isSome_iff_exists.mp (h xy (List.mem_cons_self xy rest))
    obtain ⟨out, hout, hb1, hb2, hb3, hb4, hin, hnotin⟩ :=
      ih (setPx acc xy.1 xy.2 c0) (fun z hz => h z (List.mem_cons_of_mem xy hz))
    have hstep : quantizeStep img palette m acc xy = some (setPx acc xy.1 xy.2 c0) := by
      unfold quantizeStep
      rw [hc0]
    refine ⟨out, ?_, hb1, hb2, hb3, hb4, ?_, ?_⟩
    · rw [List.foldlM_cons, hstep]
      simpa using hout
    · intro x y hxy
      rcases List.mem_cons.mp hxy with heq | hmem
      · by_cases hr : (x, y) ∈ rest
        · exact hin x y hr
        · have hpx : out.px x y = (setPx acc xy.1 xy.2 c0).px x y := hnotin x y hr
          have hxy1 : xy = (x, y) := heq.symm
          subst hxy1
          have hset : (setPx acc x y c0).px x y = c0 := by
            unfold setPx
            simp
          rw [hpx, hset]
          exact hc0
      · exact hin x y hmem
    · intro x y hxy
      have hne : ¬ (x, y) = xy := fun hc => hxy (hc ▸ List.mem_cons_self xy rest)
      have hnr : (x, y) ∉ rest := fun hc => hxy (List.mem_cons_of_mem xy hc)
      rw [hnotin x y hnr]
      unfold setPx
      simp only
      rw [if_neg]
      intro hc
      exact hne (by
        obtain ⟨ha, hb⟩ := hc
        rw [ha, hb])

/-- C1 (amended): for every input image with AT LEAST ONE PIXEL and
NONNEGATIVE minimum bounds, and every maxPaletteSize and matrixOrder,
QuantizeImage returns an image with the same bounds as the input, the
palette is the one built by PaletteFromImage before the loop, the raster
scan writes each in-bounds coordinate exactly once, and the color at each
coordinate (x,y) is NearestColor(BayerDithering(sourceColor(x,y), x, y,
len(palette), matrixOrder), palette) — a pure function of the source pixel
and the palette, so no pixel's result depends on another pixel's output.
On an image with no pixels the palette construction faults, and with
negative minimum bounds the Bayer lookup faults, so the claim's "for every
input image" fails (see the counterexample). -/
theorem quantizeImage_pipeline (img : Image) (k m : ℤ)
    (h1 : 0 < numPixels img) (h2 : 0 ≤ img.minX) (h3 : 0 ≤ img.minY) :
    ∃ palette out,
      PaletteFromImage img k = some palette ∧
      QuantizeImage img k m = some out ∧
      out.minX = img.minX ∧ out.minY = img.minY ∧
      out.maxX = img.maxX ∧ out.maxY = img.maxY ∧
      ∀ x y, img.minX ≤ x → x < img.maxX → img.minY ≤ y → y < img.maxY →
        (rasterCoords img).count (x, y) = 1 ∧
        ∃ d, BayerDithering (PixelColor img x y) x y (palette.length : ℤ) m = some d ∧
          NearestColor d palette = some (out.px x y) := by
  obtain ⟨palette, hpal, hplen, -, -, -⟩ := paletteFromImage_spec img k h1
  have heps1 : 1 ≤ estimatedPaletteSize img k := by
    rw [estimatedPaletteSize_eq]; omega
  have hplen1 : 1 ≤ palette.length := by omega
  have hpne : palette ≠ [] := by
    intro hnil
    rw [hnil] at hplen1
    simp at hplen1
  have hpre : ∀ xy ∈ rasterCoords img,
      (quantizePixel img palette m xy.1 xy.2).isSome = true := by
    intro xy hxy
    obtain ⟨hx1, hx2, hy1, hy2⟩ := (mem_rasterCoords img xy.1 xy.2).mp hxy
    have hbd := bayerDithering_isSome (PixelColor img xy.1 xy.2) xy.1 xy.2
      (palette.length : ℤ) m (by omega) (by omega) (by omega)
    obtain ⟨d, hd⟩ := Option.isSome_iff_exists.mp hbd
    obtain ⟨r, hr⟩ := nearestColor_isSome d palette hpne
    simp only [quantizePixel, hd, hr, Option.isSome_some]
  obtain ⟨out, hfold, hb1, hb2, hb3, hb4, hin, -⟩ :=
    foldlM_quantizeStep_spec img palette m (rasterCoords img)
      ⟨img.minX, img.minY, img.maxX, img.maxY, fun _ _ => ⟨0, 0, 0, 0⟩⟩ hpre
  refine ⟨palette, out, hpal, ?_, hb1, hb2, hb3, hb4, ?_⟩
  · simp only [QuantizeImage, hpal]
    exact hfold
  · intro x y hx1 hx2 hy1 hy2
    have hmem : (x, y) ∈ rasterCoords img :=
      (mem_rasterCoords img x y).mpr ⟨hx1, hx2, hy1, hy2⟩
    refine ⟨count_eq_one_of_nodup_mem (nodup_rasterCoords img) hmem, ?_⟩
    have hq := hin x y hmem
    unfold quantizePixel at hq
    cases hbd : BayerDithering (PixelColor img x y) x y (palette.length : ℤ) m with
    | none => rw [hbd] at hq; exact Option.noConfusion hq
    | some d =>
      rw [hbd] at hq
      exact ⟨d, rfl, hq⟩

/-- Witness for C1 on the 2×2 gray image with maxPaletteSize 2 and matrix
order 2. -/
theorem quantizeImage_pipeline_witness :
    (0 < numPixels imgGray ∧ 0 ≤ imgGray.minX ∧ 0 ≤ imgGray.minY) ∧
    ∃ palette out,
      PaletteFromImage imgGray 2 = some palette ∧
      QuantizeImage imgGray 2 2 = some out ∧
      out.minX = imgGray.minX ∧ out.minY = imgGray.minY ∧
      out.maxX = imgGray.maxX ∧ out.maxY = imgGray.maxY ∧
      ∀ x y, imgGray.minX ≤ x → x < imgGray.maxX → imgGray.minY ≤ y → y < imgGray.maxY →
        (rasterCoords imgGray).count (x, y) = 1 ∧
        ∃ d, BayerDithering (PixelColor imgGray x y) x y (palette.length : ℤ) 2 = some d ∧
          NearestColor d palette = some (out.px x y) :=
  ⟨⟨by decide, by decide, by decide⟩,
   quantizeImage_pipeline imgGray 2 2 (by decide) (by decide) (by decide)⟩

/-- C1 counterexample: on the zero-pixel image QuantizeImage returns no
image at all (the palette construction divides by zero), and on a 1×1
image placed at (-1,-1) it also returns no image (the Bayer lookup index
is negative) — the claim's "for every input image ... returns an image"
fails in both ways. -/
theorem quantizeImage_faulting_counterexample :
    QuantizeImage emptyImg 4 4 = none ∧ QuantizeImage negImg 4 4 = none :=
  ⟨rfl, rfl⟩

end ImageQuant
